import Mathlib

/-!
Shallow embedding of the numeric and state-update logic of
`indra/llui/llstatbar.cpp` (`LLStatBar`, a statistics-bar GUI widget),
together with the collision-record slice's context.

Modelling conventions:
* `F32` values are modelled as exact rationals (`ℚ`); the properties under study
  concern the branch and selection structure of the algorithms, not the rounding
  of individual float operations.
* `is_approx_equal` (llmath.h, which is outside this source slice) exists to
  absorb float rounding error; in the exact-rational model it degenerates to
  plain equality.
* `llceil(logf(x) * OO_LN10)` (llmath.h / libm, outside this slice) is the
  ceiling of the base-10 logarithm, modelled exactly on positive rationals.
* Only state updates are modelled for the widget member functions; GL drawing,
  fonts and tooltips are out of scope per the specification.
-/

section RatEval

attribute [local semireducible] Rat.mul Rat.inv Rat.add Rat.sub

/-- C++ `llmin(a, b)` (llmath.h): `(b < a) ? b : a`. -/
def llmin (a b : ℚ) : ℚ := if b < a then b else a

/-- C++ `llmax(a, b)` (llmath.h): `(a > b) ? a : b`. -/
def llmax (a b : ℚ) : ℚ := if b < a then a else b

/-- Number of decimal digits of a natural number (one digit for 0). -/
def digits10 (n : ℕ) : ℕ := (Nat.toDigits 10 n).length

/-- Test `p ≤ q * 10 ^ k` for an integer exponent `k`, entirely over ℕ. -/
def decPowLe (p q : ℕ) (k : ℤ) : Bool :=
  if 0 ≤ k then p ≤ q * 10 ^ k.toNat else p * 10 ^ (-k).toNat ≤ q

/-- Modelled from the spec: `llceil(logf(x) * OO_LN10)` — llmath.h and libm are not
part of this slice.  Mathematically this is `⌈log10 x⌉`, the least integer `k` with
`x ≤ 10^k`, computed here from the decimal digit counts of numerator and
denominator.  For `x ≤ 0` (a `logf` domain error) the value is immaterial to every
theorem below; we pick 0. -/
def ceilLog10 (x : ℚ) : ℤ :=
  if x ≤ 0 then 0
  else
    let p := x.num.toNat
    let q := x.den
    let d : ℤ := (digits10 p : ℤ) - (digits10 q : ℤ)
    if decPowLe p q d then d else d + 1

/-- `pow(10.0, k)` for an integer exponent, as an exact rational. -/
def qpow10 (k : ℤ) : ℚ := if 0 ≤ k then (10 : ℚ) ^ k.toNat else 1 / (10 : ℚ) ^ (-k).toNat

/-- Modelled from the spec: `is_approx_equal((F32)(S32)v, v)` (llmath.h, outside this
slice) tests whether `v` survives integer truncation, i.e. "rounds cleanly"; in the
exact-rational model this is integrality of `v`. -/
def roundsToInt (v : ℚ) : Bool := v.den == 1

/-- The digit counts scanned by the inner loop of `calc_tick_value`
(`for (digit_count = -(num_whole_digits - 1); digit_count < 6; digit_count++)`,
llstatbar.cpp line 66), in scan order. -/
def digitCountList (numWhole : ℤ) : List ℤ :=
  (List.range (5 + numWhole).toNat).map (fun i : ℕ => 1 - numWhole + (i : ℤ))

/-- One divisor's pass through the inner loop of `calc_tick_value` (llstatbar.cpp
lines 63–79): the first digit count at which
`min + possible_tick_value * 10^digit_count` rounds cleanly to an integer — the
loop breaks there — or `none` when the loop runs out without breaking. -/
def divisorScore (mn range : ℚ) (divisor : ℤ) : Option ℤ :=
  (digitCountList (ceilLog10 (mn + range / (divisor : ℚ)))).find?
    (fun dc => roundsToInt (mn + range / (divisor : ℚ) * qpow10 dc))

/-- One iteration of the outer loop of `calc_tick_value`: carry
`(best_decimal_digit_count, best_divisor)` and strictly improve it with the first
digit count found for the present divisor. -/
def tickStep (score : ℤ → Option ℤ) (best : ℤ × ℤ) (divisor : ℤ) : ℤ × ℤ :=
  match score divisor with
  | some dc => if dc < best.1 then (dc, divisor) else best
  | none => best

/-- `DIVISORS` of `calc_tick_value` (llstatbar.cpp line 57), in scan order. -/
def DIVISORS : List ℤ := [6, 8, 10, 4, 5]

/-- `S32_MAX`, the initial `best_decimal_digit_count`. -/
def S32_MAX : ℤ := 2147483647

/-- `calc_tick_value` (llstatbar.cpp lines 54–83).  `best_divisor` starts at 10;
`is_approx_equal(range, 0.f)` in the final line is exact equality in the rational
model. -/
def calc_tick_value (mn mx : ℚ) : ℚ :=
  if mx - mn = 0 then 0
  else (mx - mn) /
    (((DIVISORS.foldl (tickStep (divisorScore mn (mx - mn))) (S32_MAX, 10)).2 : ℤ) : ℚ)

/-- The working state of `calc_auto_scale_range`'s scan loops: `out_min`, `out_max`,
`cur_tick_min`, `cur_tick_max` (llstatbar.cpp lines 107–111). -/
structure ScaleState where
  out_min : ℚ
  out_max : ℚ
  tick_min : ℚ
  tick_max : ℚ
deriving DecidableEq

/-- The `RANGES` and `TICKS` tables of `calc_auto_scale_range` (llstatbar.cpp lines
90–91), zipped in index order. -/
def RANGE_TICKS : List (ℚ × ℚ) :=
  [(0, 0), (1, 1/4), (3/2, 1/2), (2, 1), (3, 1), (5, 1), (10, 2)]

/-- Body of the first (ascending) scan loop of `calc_auto_scale_range` (llstatbar.cpp
lines 113–128): `cur_min`/`cur_max` are recomputed from the starting values each
iteration, and the two guarded updates run in source order. -/
def stepA (mn mx smin smax : ℚ) (st : ScaleState) (p : ℚ × ℚ) : ScaleState :=
  let cur_min := smin * p.1
  let cur_max := smax * p.1
  let st1 := if 0 < mn ∧ cur_min ≤ mn then { st with out_min := cur_min, tick_min := p.2 } else st
  if mx < 0 ∧ mx ≤ cur_max then { st1 with out_max := cur_max, tick_max := p.2 } else st1

/-- Body of the second (descending) scan loop of `calc_auto_scale_range`
(llstatbar.cpp lines 132–147). -/
def stepB (mn mx smin smax : ℚ) (st : ScaleState) (p : ℚ × ℚ) : ScaleState :=
  let cur_min := smin * p.1
  let cur_max := smax * p.1
  let st1 := if mn < 0 ∧ cur_min ≤ mn then { st with out_min := cur_min, tick_min := p.2 } else st
  if 0 < mx ∧ mx ≤ cur_max then { st1 with out_max := cur_max, tick_max := p.2 } else st1

/-- `min = llmin(0.f, min, max)` (llstatbar.cpp line 87); the three-argument
`llmin` folds from the left. -/
def clampMin (mn mx : ℚ) : ℚ := llmin (llmin 0 mn) mx

/-- `max = llmax(0.f, min, max)` (llstatbar.cpp line 88), reading the `min` already
clamped by the previous line. -/
def clampMax (mn mx : ℚ) : ℚ := llmax (llmax 0 (clampMin mn mx)) mx

/-- `num_digits` (llstatbar.cpp lines 93–100): the `S32_MIN + 1` sentinel when a
bound is (approximately) zero, otherwise the ceiling of the base-10 log of its
magnitude; then the larger of the two. -/
def scaleNumDigits (mn mx : ℚ) : ℤ :=
  max (if |mx| = 0 then -2147483647 else ceilLog10 |mx|)
      (if |mn| = 0 then -2147483647 else ceilLog10 |mn|)

/-- `pow(10.0, num_digits - 1)` cast to F32 (llstatbar.cpp line 101): IEEE `pow`
underflows to zero for hugely negative exponents (reached only through the
`S32_MIN + 1` sentinel); the exact cutoff is immaterial to every theorem below. -/
def qpow10F (k : ℤ) : ℚ := if k < -500 then 0 else qpow10 k

/-- `calc_auto_scale_range` (llstatbar.cpp lines 85–152), returning the values the
C++ writes back through its reference parameters: `(min, max, tick)`. -/
def calc_auto_scale_range (mn0 mx0 : ℚ) : ℚ × ℚ × ℚ :=
  let mn := clampMin mn0 mx0
  let mx := clampMax mn0 mx0
  let p10 := qpow10F (scaleNumDigits mn mx - 1)
  let smax := p10 * (if mx < 0 then -1 else 1)
  let smin := p10 * (if mn < 0 then -1 else 1)
  let st1 := RANGE_TICKS.foldl (stepA mn mx smin smax) ⟨mn, mx, 0, 0⟩
  let st2 := RANGE_TICKS.reverse.foldl (stepB mn mx smin smax) st1
  (st2.out_min, st2.out_max, p10 * llmax st2.tick_min st2.tick_max)

/-- `calc_auto_scale_range` with the first (ascending) scan loop deleted; C9 compares
the full function against this one. -/
def calc_auto_scale_range_descOnly (mn0 mx0 : ℚ) : ℚ × ℚ × ℚ :=
  let mn := clampMin mn0 mx0
  let mx := clampMax mn0 mx0
  let p10 := qpow10F (scaleNumDigits mn mx - 1)
  let smax := p10 * (if mx < 0 then -1 else 1)
  let smin := p10 * (if mn < 0 then -1 else 1)
  let st2 := RANGE_TICKS.reverse.foldl (stepB mn mx smin smax) ⟨mn, mx, 0, 0⟩
  (st2.out_min, st2.out_max, p10 * llmax st2.tick_min st2.tick_max)

/-- The `LLStatBar::Params` fields read by the constructor; each `*_provided` flag
models `isProvided()` on the optional XUI parameter of the same name. -/
structure Params where
  bar_min : ℚ
  bar_min_provided : Bool
  bar_max : ℚ
  bar_max_provided : Bool
  tick_spacing : ℚ
  tick_spacing_provided : Bool

/-- The `LLStatBar` member fields the claims are about. -/
structure StatBarState where
  mMinBar : ℚ
  mMaxBar : ℚ
  mCurMinBar : ℚ
  mCurMaxBar : ℚ
  mTickValue : ℚ
  mAutoScaleMin : Bool
  mAutoScaleMax : Bool
deriving DecidableEq

/-- The `LLStatBar` constructor (llstatbar.cpp lines 175–202): the member
initializer list plus the conditional `calc_tick_value` call in the body. -/
def LLStatBar_init (p : Params) : StatBarState :=
  let minBar := llmin p.bar_min p.bar_max
  let maxBar := llmax p.bar_max p.bar_min
  { mMinBar := minBar
    mMaxBar := maxBar
    mCurMinBar := 0
    mCurMaxBar := p.bar_max
    mTickValue :=
      if !p.tick_spacing_provided && p.bar_min_provided && p.bar_max_provided then
        calc_tick_value minBar maxBar
      else p.tick_spacing
    mAutoScaleMin := !p.bar_min_provided
    mAutoScaleMax := !p.bar_max_provided }

/-- `LLStatBar::setRange` (llstatbar.cpp lines 542–547). -/
def setRange (st : StatBarState) (bar_min bar_max : ℚ) : StatBarState :=
  { st with
    mMinBar := llmin bar_min bar_max
    mMaxBar := llmax bar_min bar_max
    mTickValue := calc_tick_value (llmin bar_min bar_max) (llmax bar_min bar_max) }

/-- The member-field updates of `LLStatBar::drawTicks` (llstatbar.cpp lines
600–618); `value_scale` and the rect only affect drawing, never the fields. -/
def drawTicksUpdate (st : StatBarState) (mn mx value_scale : ℚ) : StatBarState :=
  if (st.mAutoScaleMax && decide (st.mCurMaxBar ≤ mx)) ||
     (st.mAutoScaleMin && decide (mn ≤ st.mCurMinBar)) then
    let range_min := if st.mAutoScaleMin then llmin st.mMinBar mn else st.mMinBar
    let range_max := if st.mAutoScaleMax then llmax st.mMaxBar mx else st.mMaxBar
    let r := calc_auto_scale_range range_min range_max
    let st1 := if st.mAutoScaleMin then { st with mMinBar := r.1 } else st
    let st2 := if st.mAutoScaleMax then { st1 with mMaxBar := r.2.1 } else st1
    if st.mAutoScaleMin && st.mAutoScaleMax then { st2 with mTickValue := r.2.2 }
    else { st2 with mTickValue := calc_tick_value st2.mMinBar st2.mMaxBar }
  else st

/-- Modelled from the spec: `LLSmoothInterpolation::lerp` (llcriticaldamp.h, not in
this slice); the spec describes the per-frame update as blending toward the target
by a fixed blend factor: `a * (1 - f) + b * f`. -/
def smoothLerp (a b f : ℚ) : ℚ := a * (1 - f) + b * f

/-- The smoothed-bound updates of `LLStatBar::draw` (llstatbar.cpp lines 386–387),
with the fixed blend factor 0.05 = 1/20. -/
def drawSmoothUpdate (st : StatBarState) : StatBarState :=
  { st with
    mCurMaxBar := smoothLerp st.mCurMaxBar st.mMaxBar (1/20)
    mCurMinBar := smoothLerp st.mCurMinBar st.mMinBar (1/20) }

/-- String of the decimal digits of a natural number. -/
def natDigits (n : ℕ) : String := ⟨Nat.toDigits 10 n⟩

/-- Left-pad a string with zeros to width `w`. -/
def padZeros (w : ℕ) (s : String) : String := ⟨List.replicate (w - s.length) '0'⟩ ++ s

/-- Left-pad a string with spaces to the printf field width 10. -/
def padLeft10 (s : String) : String := ⟨List.replicate (10 - s.length) ' '⟩ ++ s

/-- Fixed-point decimal rendering with `dd` digits after the point (digits obtained
by truncation). -/
def formatFixed (dd : ℕ) (v : ℚ) : String :=
  let sign := if v < 0 then "-" else ""
  let ip : ℕ := (⌊|v|⌋).toNat
  let fp : ℕ := (⌊(|v| - (⌊|v|⌋ : ℚ)) * 10 ^ dd⌋).toNat
  if dd = 0 then sign ++ natDigits ip
  else sign ++ natDigits ip ++ "." ++ padZeros dd (natDigits fp)

/-- Modelled from the spec: the numeric branch of `llformat("%10.*f %s", ...)`
(llstring.h, not in this slice) — a fixed-point rendering of the value, left-padded
with spaces to the printf field width 10, then a space and the unit label.  The
claims need only that this path is taken exactly for non-NaN values and that it can
never yield the literal "n/a"; sub-ulp rounding of the printed digits is
immaterial. -/
def llformat_10f (dd : ℕ) (v : ℚ) (label : String) : String :=
  padLeft10 (formatFixed dd v) ++ " " ++ label

/-- An F32 display value: `none` models NaN (which has no rational counterpart),
`some v` an ordinary value; `llisnan` (llmath.h) is thus `Option.isNone`. -/
def llisnan (v : Option ℚ) : Bool := v.isNone

/-- The value string computed by `LLStatBar::drawLabelAndValue` (llstatbar.cpp lines
576–583): `decimal_digits` drops to 0 for cleanly rounding values, and a NaN renders
as the literal "n/a" instead of entering the numeric format path.  (For a NaN the
C++ `(S32)value` inside the digit test is indeterminate, but its result is unused
because the NaN branch ignores `decimal_digits`.) -/
def drawLabelAndValue_str (mDecimalDigits : ℕ) (value : Option ℚ) (label : String) : String :=
  match value with
  | some v => llformat_10f (if roundsToInt v then 0 else mDecimalDigits) v label
  | none => "n/a"

/-! Helper lemmas. -/

theorem llmin_eq_min (a b : ℚ) : llmin a b = min a b := by
  unfold llmin
  rcases lt_or_le b a with h | h
  · rw [if_pos h, min_eq_right h.le]
  · rw [if_neg (not_lt.mpr h), min_eq_left h]

theorem llmax_eq_max (a b : ℚ) : llmax a b = max a b := by
  unfold llmax
  rcases lt_or_le b a with h | h
  · rw [if_pos h, max_eq_left h.le]
  · rw [if_neg (not_lt.mpr h), max_eq_right h]

theorem clampMin_nonpos (mn mx : ℚ) : clampMin mn mx ≤ 0 := by
  simp only [clampMin, llmin_eq_min]
  exact le_trans (min_le_left _ _) (min_le_left _ _)

theorem clampMin_le_fst (mn mx : ℚ) : clampMin mn mx ≤ mn := by
  simp only [clampMin, llmin_eq_min]
  exact le_trans (min_le_left _ _) (min_le_right _ _)

theorem clampMin_le_snd (mn mx : ℚ) : clampMin mn mx ≤ mx := by
  simp only [clampMin, llmin_eq_min]
  exact min_le_right _ _

theorem clampMax_nonneg (mn mx : ℚ) : 0 ≤ clampMax mn mx := by
  simp only [clampMax, llmax_eq_max]
  exact le_trans (le_max_left _ _) (le_max_left _ _)

theorem clampMax_ge_snd (mn mx : ℚ) : mx ≤ clampMax mn mx := by
  simp only [clampMax, llmax_eq_max]
  exact le_max_right _ _

theorem foldl_inv {α β : Type} (P : α → Prop) (f : α → β → α) :
    ∀ (l : List β) (init : α), P init → (∀ a b, b ∈ l → P a → P (f a b)) →
      P (l.foldl f init) := by
  intro l
  induction l with
  | nil => intro init h _; simpa using h
  | cons x xs ih =>
    intro init h hs
    simp only [List.foldl_cons]
    exact ih _ (hs init x (by simp) h) (fun a b hb ha => hs a b (by simp [hb]) ha)

theorem foldl_congr_id {α β : Type} (f : α → β → α) :
    ∀ (l : List β), (∀ a b, b ∈ l → f a b = a) → ∀ init, l.foldl f init = init := by
  intro l
  induction l with
  | nil => intro _ init; rfl
  | cons x xs ih =>
    intro h init
    simp only [List.foldl_cons]
    rw [h init x (by simp)]
    exact ih (fun a b hb => h a b (by simp [hb])) init

theorem stepA_id (mn mx smin smax : ℚ) (hmn : mn ≤ 0) (hmx : 0 ≤ mx)
    (st : ScaleState) (p : ℚ × ℚ) : stepA mn mx smin smax st p = st := by
  have h1 : ¬(0 < mn ∧ smin * p.1 ≤ mn) := fun h => absurd h.1 (not_lt.mpr hmn)
  have h2 : ¬(mx < 0 ∧ mx ≤ smax * p.1) := fun h => absurd h.1 (not_lt.mpr hmx)
  simp only [stepA, if_neg h1, if_neg h2]

theorem stepA_fold_id (mn mx : ℚ) (hmn : mn ≤ 0) (hmx : 0 ≤ mx) (smin smax : ℚ)
    (init : ScaleState) : RANGE_TICKS.foldl (stepA mn mx smin smax) init = init :=
  foldl_congr_id _ _ (fun a b _ => stepA_id mn mx smin smax hmn hmx a b) init

theorem stepB_pres (mn mx smin smax : ℚ) (st : ScaleState) (p : ℚ × ℚ)
    (h1 : st.out_min ≤ mn) (h2 : mx ≤ st.out_max)
    (h3 : st.out_min ≤ 0) (h4 : 0 ≤ st.out_max) :
    (stepB mn mx smin smax st p).out_min ≤ mn ∧ mx ≤ (stepB mn mx smin smax st p).out_max ∧
      (stepB mn mx smin smax st p).out_min ≤ 0 ∧ 0 ≤ (stepB mn mx smin smax st p).out_max := by
  simp only [stepB]
  split_ifs with ha hb hb
  · exact ⟨hb.2, ha.2, hb.2.trans hb.1.le, ha.1.le.trans ha.2⟩
  · exact ⟨h1, ha.2, h3, ha.1.le.trans ha.2⟩
  · exact ⟨hb.2, h2, hb.2.trans hb.1.le, h4⟩
  · exact ⟨h1, h2, h3, h4⟩

theorem scale_bounds_all (mn0 mx0 : ℚ) :
    (calc_auto_scale_range mn0 mx0).1 ≤ clampMin mn0 mx0 ∧
      clampMax mn0 mx0 ≤ (calc_auto_scale_range mn0 mx0).2.1 ∧
      (calc_auto_scale_range mn0 mx0).1 ≤ 0 ∧ 0 ≤ (calc_auto_scale_range mn0 mx0).2.1 := by
  simp only [calc_auto_scale_range]
  rw [stepA_fold_id (clampMin mn0 mx0) (clampMax mn0 mx0)
        (clampMin_nonpos mn0 mx0) (clampMax_nonneg mn0 mx0)]
  have h := foldl_inv
    (fun s : ScaleState =>
      s.out_min ≤ clampMin mn0 mx0 ∧ clampMax mn0 mx0 ≤ s.out_max ∧
        s.out_min ≤ 0 ∧ 0 ≤ s.out_max)
    (stepB (clampMin mn0 mx0) (clampMax mn0 mx0)
      (qpow10F (scaleNumDigits (clampMin mn0 mx0) (clampMax mn0 mx0) - 1) *
        if clampMin mn0 mx0 < 0 then -1 else 1)
      (qpow10F (scaleNumDigits (clampMin mn0 mx0) (clampMax mn0 mx0) - 1) *
        if clampMax mn0 mx0 < 0 then -1 else 1))
    RANGE_TICKS.reverse
    ⟨clampMin mn0 mx0, clampMax mn0 mx0, 0, 0⟩
    ⟨le_refl _, le_refl _, clampMin_nonpos mn0 mx0, clampMax_nonneg mn0 mx0⟩
    (fun a b _ ha => stepB_pres _ _ _ _ a b ha.1 ha.2.1 ha.2.2.1 ha.2.2.2)
  exact h

/-- C1: for every pair of observed bounds `(min, max)`, `calc_auto_scale_range`
returns output bounds with `out_min ≤ min` and `out_max ≥ max`: the chosen display
range always contains the observed data and never clips it. -/
theorem auto_scale_range_contains_data (mn mx : ℚ) :
    (calc_auto_scale_range mn mx).1 ≤ mn ∧ mx ≤ (calc_auto_scale_range mn mx).2.1 :=
  ⟨le_trans (scale_bounds_all mn mx).1 (clampMin_le_fst mn mx),
   le_trans (clampMax_ge_snd mn mx) (scale_bounds_all mn mx).2.1⟩

/-- C3: for every pair of observed bounds `(min, max)`, the bounds returned by
`calc_auto_scale_range` bracket zero: `out_min ≤ 0 ≤ out_max`. -/
theorem auto_scale_range_brackets_zero (mn mx : ℚ) :
    (calc_auto_scale_range mn mx).1 ≤ 0 ∧ 0 ≤ (calc_auto_scale_range mn mx).2.1 :=
  ⟨(scale_bounds_all mn mx).2.2.1, (scale_bounds_all mn mx).2.2.2⟩

/-- C9: after the initial clamping the working min is `≤ 0` and the working max is
`≥ 0` for every input, so the guards `min > 0` and `max < 0` of the first
(ascending) scan loop are never true — the loop is the identity on the scan state —
and `calc_auto_scale_range` is fully determined by the clamp and the second
(descending) loop. -/
theorem auto_scale_first_loop_vacuous (mn mx : ℚ) :
    clampMin mn mx ≤ 0 ∧ 0 ≤ clampMax mn mx ∧
      (∀ (smin smax : ℚ) (st : ScaleState) (p : ℚ × ℚ),
        stepA (clampMin mn mx) (clampMax mn mx) smin smax st p = st) ∧
      calc_auto_scale_range mn mx = calc_auto_scale_range_descOnly mn mx := by
  refine ⟨clampMin_nonpos mn mx, clampMax_nonneg mn mx, ?_, ?_⟩
  · exact fun smin smax st p =>
      stepA_id _ _ smin smax (clampMin_nonpos mn mx) (clampMax_nonneg mn mx) st p
  · simp only [calc_auto_scale_range, calc_auto_scale_range_descOnly]
    rw [stepA_fold_id (clampMin mn mx) (clampMax mn mx)
          (clampMin_nonpos mn mx) (clampMax_nonneg mn mx)]

theorem tick_fold_pos_snd (score : ℤ → Option ℤ) :
    0 < (DIVISORS.foldl (tickStep score) (S32_MAX, 10)).2 := by
  refine foldl_inv (fun best : ℤ × ℤ => 0 < best.2) (tickStep score) DIVISORS
    (S32_MAX, 10) (by norm_num) ?_
  intro a b hb ha
  unfold tickStep
  cases hsc : score b with
  | none => exact ha
  | some dc =>
    dsimp only
    split_ifs
    · simp only [DIVISORS, List.mem_cons, List.not_mem_nil, or_false] at hb
      rcases hb with rfl | rfl | rfl | rfl | rfl <;> norm_num
    · exact ha

/-- C2: for every input pair with `max ≥ min`, `calc_tick_value` returns a
non-negative interval, and returns 0 exactly when `max = min`; in particular a
zero-width range degrades to a zero tick interval and any strictly wider range
gives a strictly positive one. -/
theorem tick_value_nonneg_zero_iff (mn mx : ℚ) (h : mn ≤ mx) :
    0 ≤ calc_tick_value mn mx ∧ (calc_tick_value mn mx = 0 ↔ mx = mn) := by
  have hd := tick_fold_pos_snd (divisorScore mn (mx - mn))
  have hdq : (0 : ℚ) <
      (((DIVISORS.foldl (tickStep (divisorScore mn (mx - mn))) (S32_MAX, 10)).2 : ℤ) : ℚ) := by
    exact_mod_cast hd
  unfold calc_tick_value
  split_ifs with h0
  · exact ⟨le_refl 0, by simp [sub_eq_zero.mp h0]⟩
  · have hr : 0 < mx - mn := lt_of_le_of_ne (sub_nonneg.mpr h) (Ne.symm h0)
    have hpos := div_pos hr hdq
    refine ⟨hpos.le, ?_, ?_⟩
    · intro heq; exact absurd heq (ne_of_gt hpos)
    · intro heq; exact absurd (by rw [heq, sub_self]) h0

/-- Witness for C2 at the concrete input `(min, max) = (2, 5)`. -/
theorem tick_value_nonneg_zero_iff_witness :
    (2 : ℚ) ≤ 5 ∧
      (0 ≤ calc_tick_value 2 5 ∧ (calc_tick_value 2 5 = 0 ↔ (5 : ℚ) = 2)) :=
  ⟨by decide, tick_value_nonneg_zero_iff 2 5 (by decide)⟩

/-- C5: for the concrete input `min = 0`, `max = 100`, the selected tick interval is
a round whole number from `{10, 20, 25}` dividing the range by one of the preferred
divisors (the code picks `100 / 5 = 20`). -/
theorem tick_value_at_0_100 :
    calc_tick_value 0 100 = 10 ∨ calc_tick_value 0 100 = 20 ∨ calc_tick_value 0 100 = 25 := by
  right; left
  decide

theorem tickFold_argmin (score : ℤ → Option ℤ) :
    ∀ (l : List ℤ) (init : ℤ × ℤ),
      (l.foldl (tickStep score) init = init ∧
        ∀ x ∈ l, ∀ s, score x = some s → init.1 ≤ s) ∨
      (∃ l₁ l₂,
        l = l₁ ++ (l.foldl (tickStep score) init).2 :: l₂ ∧
        score (l.foldl (tickStep score) init).2 = some (l.foldl (tickStep score) init).1 ∧
        (l.foldl (tickStep score) init).1 < init.1 ∧
        (∀ x ∈ l, ∀ s, score x = some s → (l.foldl (tickStep score) init).1 ≤ s) ∧
        (∀ x ∈ l₁, ∀ s, score x = some s → (l.foldl (tickStep score) init).1 < s)) := by
  intro l
  induction l with
  | nil =>
    intro init
    left
    exact ⟨rfl, by simp⟩
  | cons d rest ih =>
    intro init
    simp only [List.foldl_cons]
    cases hsc : score d with
    | none =>
      have hstep : tickStep score init d = init := by simp [tickStep, hsc]
      rw [hstep]
      rcases ih init with ⟨heq, hmin⟩ | ⟨l₁, l₂, hsplit, hs, hlt, hmin, hstrict⟩
      · left
        refine ⟨heq, ?_⟩
        intro x hx s hxs
        rcases List.mem_cons.mp hx with rfl | hx
        · rw [hsc] at hxs; cases hxs
        · exact hmin x hx s hxs
      · right
        refine ⟨d :: l₁, l₂, by rw [List.cons_append, ← hsplit], hs, hlt, ?_, ?_⟩
        · intro x hx s hxs
          rcases List.mem_cons.mp hx with rfl | hx
          · rw [hsc] at hxs; cases hxs
          · exact hmin x hx s hxs
        · intro x hx s hxs
          rcases List.mem_cons.mp hx with rfl | hx
          · rw [hsc] at hxs; cases hxs
          · exact hstrict x hx s hxs
    | some c =>
      by_cases hc : c < init.1
      · have hstep : tickStep score init d = (c, d) := by simp [tickStep, hsc, hc]
        rw [hstep]
        rcases ih (c, d) with ⟨heq, hmin⟩ | ⟨l₁, l₂, hsplit, hs, hlt, hmin, hstrict⟩
        · right
          rw [heq]
          refine ⟨[], rest, by simp, by simpa using hsc, hc, ?_, by simp⟩
          intro x hx s hxs
          rcases List.mem_cons.mp hx with rfl | hx
          · rw [hsc] at hxs
            injection hxs with hxs
            exact le_of_eq hxs
          · exact hmin x hx s hxs
        · right
          refine ⟨d :: l₁, l₂, by rw [List.cons_append, ← hsplit], hs,
            lt_trans hlt hc, ?_, ?_⟩
          · intro x hx s hxs
            rcases List.mem_cons.mp hx with rfl | hx
            · rw [hsc] at hxs
              injection hxs with hxs
              exact le_of_lt (hxs ▸ hlt)
            · exact hmin x hx s hxs
          · intro x hx s hxs
            rcases List.mem_cons.mp hx with rfl | hx
            · rw [hsc] at hxs
              injection hxs with hxs
              exact hxs ▸ hlt
            · exact hstrict x hx s hxs
      · have hstep : tickStep score init d = init := by simp [tickStep, hsc, hc]
        rw [hstep]
        rcases ih init with ⟨heq, hmin⟩ | ⟨l₁, l₂, hsplit, hs, hlt, hmin, hstrict⟩
        · left
          refine ⟨heq, ?_⟩
          intro x hx s hxs
          rcases List.mem_cons.mp hx with rfl | hx
          · rw [hsc] at hxs
            injection hxs with hxs
            exact hxs ▸ not_lt.mp hc
          · exact hmin x hx s hxs
        · right
          refine ⟨d :: l₁, l₂, by rw [List.cons_append, ← hsplit], hs, hlt, ?_, ?_⟩
          · intro x hx s hxs
            rcases List.mem_cons.mp hx with rfl | hx
            · rw [hsc] at hxs
              injection hxs with hxs
              exact le_of_lt (hxs ▸ lt_of_lt_of_le hlt (not_lt.mp hc))
            · exact hmin x hx s hxs
          · intro x hx s hxs
            rcases List.mem_cons.mp hx with rfl | hx
            · rw [hsc] at hxs
              injection hxs with hxs
              exact hxs ▸ lt_of_lt_of_le hlt (not_lt.mp hc)
            · exact hstrict x hx s hxs

theorem divisorScore_le_five (mn r : ℚ) (d s : ℤ)
    (h : divisorScore mn r d = some s) : s ≤ 5 := by
  unfold divisorScore at h
  have hmem : s ∈ digitCountList (ceilLog10 (mn + r / (d : ℚ))) :=
    List.mem_of_find?_eq_some h
  unfold digitCountList at hmem
  obtain ⟨i, hi, rfl⟩ := List.mem_map.mp hmem
  have hi' : i < (5 + ceilLog10 (mn + r / (d : ℚ))).toNat := List.mem_range.mp hi
  have hb : (i : ℤ) < ((5 + ceilLog10 (mn + r / (d : ℚ))).toNat : ℤ) := by exact_mod_cast hi'
  rw [Int.toNat_eq_max] at hb
  rcases max_cases (5 + ceilLog10 (mn + r / (d : ℚ))) (0 : ℤ) with ⟨he, _⟩ | ⟨he, _⟩ <;>
    rw [he] at hb <;> omega

/-- C4: whenever `calc_tick_value` returns a nonzero interval, that interval is
`(max − min) / d` for a divisor `d` from the preferred set `{6, 8, 10, 4, 5}`;
either no divisor's inner scan found a cleanly-rounding digit count (and the default
divisor 10 was kept), or the chosen divisor attains the least digit count found and
is the first in the fixed scan order `6, 8, 10, 4, 5` to attain it. -/
theorem tick_value_divisor_argmin (mn mx : ℚ) (h : calc_tick_value mn mx ≠ 0) :
    ∃ d ∈ DIVISORS, calc_tick_value mn mx = (mx - mn) / (d : ℚ) ∧
      ((∀ d' ∈ DIVISORS, divisorScore mn (mx - mn) d' = none) ∨
        (∃ c, divisorScore mn (mx - mn) d = some c ∧
          (∀ d' ∈ DIVISORS, ∀ s, divisorScore mn (mx - mn) d' = some s → c ≤ s) ∧
          (∃ l₁ l₂, DIVISORS = l₁ ++ d :: l₂ ∧
            ∀ d' ∈ l₁, ∀ s, divisorScore mn (mx - mn) d' = some s → c < s))) := by
  have hr : ¬(mx - mn = 0) := by
    intro h0
    exact h (by unfold calc_tick_value; rw [if_pos h0])
  have hval : calc_tick_value mn mx = (mx - mn) /
      (((DIVISORS.foldl (tickStep (divisorScore mn (mx - mn))) (S32_MAX, 10)).2 : ℤ) : ℚ) := by
    unfold calc_tick_value
    rw [if_neg hr]
  rcases tickFold_argmin (divisorScore mn (mx - mn)) DIVISORS (S32_MAX, 10) with
    ⟨heq, hmin⟩ | ⟨l₁, l₂, hsplit, hs, _, hmin, hstrict⟩
  · refine ⟨10, by simp [DIVISORS], ?_, Or.inl ?_⟩
    · rw [hval, heq]
    · intro d' hd'
      cases hsc : divisorScore mn (mx - mn) d' with
      | none => rfl
      | some s =>
        have h1 := hmin d' hd' s hsc
        have h2 := divisorScore_le_five mn (mx - mn) d' s hsc
        simp only [S32_MAX] at h1
        omega
  · refine ⟨(DIVISORS.foldl (tickStep (divisorScore mn (mx - mn))) (S32_MAX, 10)).2,
      ?_, hval, Or.inr ?_⟩
    · have hm : (DIVISORS.foldl (tickStep (divisorScore mn (mx - mn))) (S32_MAX, 10)).2 ∈
          l₁ ++ (DIVISORS.foldl (tickStep (divisorScore mn (mx - mn))) (S32_MAX, 10)).2 :: l₂ :=
        List.mem_append_right _ (List.mem_cons_self _ _)
      rwa [← hsplit] at hm
    · exact ⟨(DIVISORS.foldl (tickStep (divisorScore mn (mx - mn))) (S32_MAX, 10)).1,
        hs, hmin, l₁, l₂, hsplit, hstrict⟩

/-- Witness for C4 at the concrete input `(0, 100)`, where the tick interval is
nonzero. -/
theorem tick_value_divisor_argmin_witness :
    calc_tick_value 0 100 ≠ 0 ∧
      (∃ d ∈ DIVISORS, calc_tick_value 0 100 = (100 - 0) / (d : ℚ) ∧
        ((∀ d' ∈ DIVISORS, divisorScore 0 (100 - 0) d' = none) ∨
          (∃ c, divisorScore 0 (100 - 0) d = some c ∧
            (∀ d' ∈ DIVISORS, ∀ s, divisorScore 0 (100 - 0) d' = some s → c ≤ s) ∧
            (∃ l₁ l₂, DIVISORS = l₁ ++ d :: l₂ ∧
              ∀ d' ∈ l₁, ∀ s, divisorScore 0 (100 - 0) d' = some s → c < s)))) :=
  ⟨by decide, tick_value_divisor_argmin 0 100 (by decide)⟩

theorem init_min_le_max (p : Params) :
    (LLStatBar_init p).mMinBar ≤ (LLStatBar_init p).mMaxBar := by
  simp only [LLStatBar_init, llmin_eq_min, llmax_eq_max]
  exact le_trans (min_le_left _ _) (le_max_right _ _)

theorem setRange_min_le_max (st : StatBarState) (a b : ℚ) :
    (setRange st a b).mMinBar ≤ (setRange st a b).mMaxBar := by
  simp only [setRange, llmin_eq_min, llmax_eq_max]
  exact le_trans (min_le_left _ _) (le_max_left _ _)

theorem drawTicks_pres_min_le_max (st : StatBarState) (mn mx vs : ℚ)
    (h : st.mMinBar ≤ st.mMaxBar) :
    (drawTicksUpdate st mn mx vs).mMinBar ≤ (drawTicksUpdate st mn mx vs).mMaxBar := by
  unfold drawTicksUpdate
  cases hmin : st.mAutoScaleMin <;> cases hmax : st.mAutoScaleMax <;> simp
  · exact h
  · -- mAutoScaleMin = false, mAutoScaleMax = true
    split_ifs with hg
    · have h1 : st.mMaxBar ≤ llmax st.mMaxBar mx := by
        rw [llmax_eq_max]; exact le_max_left _ _
      have h2 := clampMax_ge_snd st.mMinBar (llmax st.mMaxBar mx)
      have h3 := (scale_bounds_all st.mMinBar (llmax st.mMaxBar mx)).2.1
      exact h.trans (h1.trans (h2.trans h3))
    · exact h
  · -- mAutoScaleMin = true, mAutoScaleMax = false
    split_ifs with hg
    · exact le_trans (scale_bounds_all (llmin st.mMinBar mn) st.mMaxBar).1
        (clampMin_le_snd _ _)
    · exact h
  · -- both auto-scale flags set
    split_ifs with hg
    · exact le_trans (scale_bounds_all (llmin st.mMinBar mn) (llmax st.mMaxBar mx)).2.2.1
        (scale_bounds_all (llmin st.mMinBar mn) (llmax st.mMaxBar mx)).2.2.2
    · exact h

/-- C6: the widget invariant `mMinBar ≤ mMaxBar` holds after construction from any
`Params`, after every `setRange` call in either argument order, and is preserved by
every auto-scale update performed inside `drawTicks`. -/
theorem statbar_min_le_max_invariant :
    (∀ p : Params, (LLStatBar_init p).mMinBar ≤ (LLStatBar_init p).mMaxBar) ∧
      (∀ (st : StatBarState) (a b : ℚ),
        (setRange st a b).mMinBar ≤ (setRange st a b).mMaxBar) ∧
      (∀ (st : StatBarState) (mn mx vs : ℚ), st.mMinBar ≤ st.mMaxBar →
        (drawTicksUpdate st mn mx vs).mMinBar ≤ (drawTicksUpdate st mn mx vs).mMaxBar) :=
  ⟨init_min_le_max, setRange_min_le_max, drawTicks_pres_min_le_max⟩

/-- Witness for C6's preservation clause at a concrete widget state. -/
theorem statbar_min_le_max_invariant_witness :
    ((⟨1, 2, 0, 2, 1, true, true⟩ : StatBarState).mMinBar ≤
        (⟨1, 2, 0, 2, 1, true, true⟩ : StatBarState).mMaxBar) ∧
      ((drawTicksUpdate ⟨1, 2, 0, 2, 1, true, true⟩ 0 3 1).mMinBar ≤
        (drawTicksUpdate ⟨1, 2, 0, 2, 1, true, true⟩ 0 3 1).mMaxBar) :=
  ⟨by decide, statbar_min_le_max_invariant.2.2 ⟨1, 2, 0, 2, 1, true, true⟩ 0 3 1 (by decide)⟩

/-- C7: on every draw frame each smoothed display bound moves only by blending
toward its target with the fixed blend factor 0.05: the new value lies between the
previous value and the target, and the per-frame change is exactly one twentieth of
the remaining gap — so it is bounded and never jumps past the target. -/
theorem draw_smooth_update_bounded (st : StatBarState) :
    min st.mCurMaxBar st.mMaxBar ≤ (drawSmoothUpdate st).mCurMaxBar ∧
      (drawSmoothUpdate st).mCurMaxBar ≤ max st.mCurMaxBar st.mMaxBar ∧
      (drawSmoothUpdate st).mCurMaxBar - st.mCurMaxBar =
        (st.mMaxBar - st.mCurMaxBar) * (1 / 20) ∧
      min st.mCurMinBar st.mMinBar ≤ (drawSmoothUpdate st).mCurMinBar ∧
      (drawSmoothUpdate st).mCurMinBar ≤ max st.mCurMinBar st.mMinBar ∧
      (drawSmoothUpdate st).mCurMinBar - st.mCurMinBar =
        (st.mMinBar - st.mCurMinBar) * (1 / 20) := by
  simp only [drawSmoothUpdate, smoothLerp]
  refine ⟨?_, ?_, by ring, ?_, ?_, by ring⟩
  · have h1 := min_le_left st.mCurMaxBar st.mMaxBar
    have h2 := min_le_right st.mCurMaxBar st.mMaxBar
    linarith
  · have h1 := le_max_left st.mCurMaxBar st.mMaxBar
    have h2 := le_max_right st.mCurMaxBar st.mMaxBar
    linarith
  · have h1 := min_le_left st.mCurMinBar st.mMinBar
    have h2 := min_le_right st.mCurMinBar st.mMinBar
    linarith
  · have h1 := le_max_left st.mCurMinBar st.mMinBar
    have h2 := le_max_right st.mCurMinBar st.mMinBar
    linarith

theorem padLeft10_len (s : String) : 10 ≤ (padLeft10 s).length := by
  unfold padLeft10
  rw [String.length_append]
  have hrep : (String.mk (List.replicate (10 - s.length) ' ')).length =
      10 - s.length := List.length_replicate _ _
  rw [hrep]
  omega

theorem llformat_10f_len (dd : ℕ) (v : ℚ) (label : String) :
    11 ≤ (llformat_10f dd v label).length := by
  unfold llformat_10f
  rw [String.length_append, String.length_append]
  have h1 := padLeft10_len (formatFixed dd v)
  have h2 : (" " : String).length = 1 := rfl
  omega

/-- C8: the string produced by `drawLabelAndValue` is the literal "n/a" if and only
if the display value is NaN; every non-NaN value goes down the numeric format path,
whose output (at least the 10-wide numeric field plus the label separator) can never
equal "n/a". -/
theorem label_value_na_iff_nan (dd : ℕ) (value : Option ℚ) (label : String) :
    drawLabelAndValue_str dd value label = "n/a" ↔ llisnan value = true := by
  cases value with
  | none => simp [drawLabelAndValue_str, llisnan]
  | some v =>
    simp only [drawLabelAndValue_str, llisnan, Option.isNone_some, Bool.false_eq_true,
      iff_false]
    intro hcontra
    have hlen : (llformat_10f (if roundsToInt v then 0 else dd) v label).length =
        ("n/a" : String).length := by rw [hcontra]
    have h11 := llformat_10f_len (if roundsToInt v then 0 else dd) v label
    have h3 : ("n/a" : String).length = 3 := rfl
    omega

/-- C10: when both `mAutoScaleMin` and `mAutoScaleMax` are off, `drawTicks` leaves
`mMinBar`, `mMaxBar` and `mTickValue` (indeed the whole widget state) unchanged for
every input: the fixed range and tick spacing are never overwritten. -/
theorem draw_ticks_no_auto_scale_id (st : StatBarState) (mn mx vs : ℚ)
    (hmin : st.mAutoScaleMin = false) (hmax : st.mAutoScaleMax = false) :
    drawTicksUpdate st mn mx vs = st := by
  unfold drawTicksUpdate
  rw [hmin, hmax]
  simp

/-- Witness for C10 at a concrete widget state with both auto-scale flags off. -/
theorem draw_ticks_no_auto_scale_id_witness :
    (⟨0, 5, 0, 5, 1, false, false⟩ : StatBarState).mAutoScaleMin = false ∧
      (⟨0, 5, 0, 5, 1, false, false⟩ : StatBarState).mAutoScaleMax = false ∧
      drawTicksUpdate ⟨0, 5, 0, 5, 1, false, false⟩ 1 2 3 = ⟨0, 5, 0, 5, 1, false, false⟩ :=
  ⟨rfl, rfl, draw_ticks_no_auto_scale_id ⟨0, 5, 0, 5, 1, false, false⟩ 1 2 3 rfl rfl⟩

end RatEval
